import Mathlib

/-!
Verification of the stopwatch firmware (src/firmware/main.c).

The firmware is shallowly embedded: the lap store (a raw byte region at
MAIN_RAM_BASE plus the `lap_count` counter) becomes a state record whose
memory is a function from signed byte offsets to byte values; device
register reads become an input stream of sampled values; device register
writes become an event trace; C's `(unsigned char)` cast becomes `% 256`;
the busy-wait loops of `delay_ms` and the main control loop become
fuelled recursions over the embedded state.
-/

namespace Stopwatch

/-- MAX_LAPS in main.c: capacity of the lap store. -/
def MAX_LAPS : Int := 16

/-- LAP_RECORD_SIZE in main.c: each lap record is 3 bytes
(minutes, seconds, ticks). -/
def LAP_RECORD_SIZE : Int := 3

/-- One sample of the three stopwatch CSR read registers
(`stopwatch_minutes_read()`, `stopwatch_seconds_read()`,
`stopwatch_ticks_read()`).  The device counters are wider than a byte,
so the fields are unrestricted naturals. -/
structure DevSample where
  minutes : Nat
  seconds : Nat
  ticks : Nat
deriving DecidableEq, Repr

/-- The lap-store state of the firmware: `mem a` is the byte stored at
signed offset `a` from `lap_mem` (= MAIN_RAM_BASE); `lap_count` is the
C `static int lap_count`.  Offsets are `Int` because `read_lap` performs
signed index arithmetic (`int base = index * LAP_RECORD_SIZE`), so a
negative index addresses memory below the buffer base. -/
structure LapState where
  mem : Int → Nat
  lap_count : Int

/-- `save_lap` from main.c: if `lap_count >= MAX_LAPS` return (no-op);
otherwise write the three device reads, truncated by the
`(unsigned char)` cast to `% 256`, at byte offsets
`base, base+1, base+2` with `base = lap_count * LAP_RECORD_SIZE`, then
increment `lap_count`. -/
def save_lap (d : DevSample) (st : LapState) : LapState :=
  if st.lap_count ≥ MAX_LAPS then st
  else
    let base := st.lap_count * LAP_RECORD_SIZE
    { mem := fun a =>
        if a = base then d.minutes % 256
        else if a = base + 1 then d.seconds % 256
        else if a = base + 2 then d.ticks % 256
        else st.mem a,
      lap_count := st.lap_count + 1 }

/-- `read_lap` from main.c: if `index >= lap_count` return the zero
record; otherwise read the three bytes at
`base = index * LAP_RECORD_SIZE`.  Note the C guard is one-sided: a
negative `index` passes it and reads below the buffer base. -/
def read_lap (st : LapState) (index : Int) : Nat × Nat × Nat :=
  if index ≥ st.lap_count then (0, 0, 0)
  else
    let base := index * LAP_RECORD_SIZE
    (st.mem base, st.mem (base + 1), st.mem (base + 2))

/-- The truncated byte triple that `save_lap` stores for a sample. -/
def trunc (d : DevSample) : Nat × Nat × Nat :=
  (d.minutes % 256, d.seconds % 256, d.ticks % 256)

/-- `n` successive `save_lap` calls, the `k`-th call (0-based) sampling
`dev k`; the call with the last sample `dev (n-1)` is outermost. -/
def appendN (dev : Nat → DevSample) : Nat → LapState → LapState
  | 0, st => st
  | n + 1, st => save_lap (dev n) (appendN dev n st)

/- ── Basic lemmas about `save_lap` ───────────────────────────────── -/

theorem save_lap_at_capacity (d : DevSample) (st : LapState)
    (h : st.lap_count ≥ MAX_LAPS) : save_lap d st = st := by
  simp [save_lap, h]

theorem save_lap_count_lt (d : DevSample) (st : LapState)
    (h : st.lap_count < MAX_LAPS) :
    (save_lap d st).lap_count = st.lap_count + 1 := by
  simp [save_lap, not_le.mpr h]

theorem save_lap_mem_lt (d : DevSample) (st : LapState)
    (h : st.lap_count < MAX_LAPS) :
    (save_lap d st).mem = fun a =>
      if a = st.lap_count * LAP_RECORD_SIZE then d.minutes % 256
      else if a = st.lap_count * LAP_RECORD_SIZE + 1 then d.seconds % 256
      else if a = st.lap_count * LAP_RECORD_SIZE + 2 then d.ticks % 256
      else st.mem a := by
  simp [save_lap, not_le.mpr h]

/-- A successful `save_lap` leaves every byte outside its own 3-byte
slot unchanged. -/
theorem save_lap_mem_frame (d : DevSample) (st : LapState) (a : Int)
    (h1 : a < st.lap_count * LAP_RECORD_SIZE ∨
          a > st.lap_count * LAP_RECORD_SIZE + 2) :
    (save_lap d st).mem a = st.mem a := by
  by_cases h : st.lap_count ≥ MAX_LAPS
  · rw [save_lap_at_capacity d st h]
  · rw [save_lap_mem_lt d st (not_le.mp h)]
    rcases h1 with h1 | h1 <;>
      simp only [] <;>
      rw [if_neg (by omega), if_neg (by omega), if_neg (by omega)]

/-- Reading back the slot a successful `save_lap` just wrote yields the
truncated sample. -/
theorem read_save (d : DevSample) (st : LapState)
    (h : st.lap_count < MAX_LAPS) :
    read_lap (save_lap d st) st.lap_count = trunc d := by
  have hc := save_lap_count_lt d st h
  have hm := save_lap_mem_lt d st h
  unfold read_lap
  rw [hc, if_neg (by omega), hm]
  simp [trunc, LAP_RECORD_SIZE]

/- ── Count after `n` appends from an empty store ─────────────────── -/

theorem appendN_count (dev : Nat → DevSample) (st : LapState)
    (h0 : st.lap_count = 0) (n : Nat) :
    (appendN dev n st).lap_count = min (n : Int) MAX_LAPS := by
  induction n with
  | zero => simpa [appendN, MAX_LAPS] using h0
  | succ n ih =>
    show (save_lap (dev n) (appendN dev n st)).lap_count = _
    by_cases h : (n : Int) < MAX_LAPS
    · rw [save_lap_count_lt _ _ (by rw [ih]; omega), ih]
      simp only [MAX_LAPS] at h ⊢
      omega
    · rw [save_lap_at_capacity _ _ (by rw [ih]; omega), ih]
      simp only [MAX_LAPS] at h ⊢
      omega

/-- After `n` appends from an empty store, every slot `i` that was
filled by a successful append holds the truncated `i`-th sample. -/
theorem appendN_mem (dev : Nat → DevSample) (st : LapState)
    (h0 : st.lap_count = 0) (n : Nat) (i : Nat)
    (hi : (i : Int) < min (n : Int) MAX_LAPS) :
    (appendN dev n st).mem ((i : Int) * LAP_RECORD_SIZE) =
        (dev i).minutes % 256 ∧
    (appendN dev n st).mem ((i : Int) * LAP_RECORD_SIZE + 1) =
        (dev i).seconds % 256 ∧
    (appendN dev n st).mem ((i : Int) * LAP_RECORD_SIZE + 2) =
        (dev i).ticks % 256 := by
  induction n with
  | zero => simp [MAX_LAPS] at hi; omega
  | succ n ih =>
    have hcount := appendN_count dev st h0 n
    have hstep : appendN dev (n + 1) st = save_lap (dev n) (appendN dev n st) :=
      rfl
    rw [hstep]
    by_cases hn : (n : Int) < MAX_LAPS
    · have hlt : (appendN dev n st).lap_count < MAX_LAPS := by
        rw [hcount]; simp only [MAX_LAPS] at *; omega
      rw [save_lap_mem_lt _ _ hlt]
      simp only [hcount, MAX_LAPS, LAP_RECORD_SIZE] at *
      by_cases hin : i = n
      · subst hin
        refine ⟨?_, ?_, ?_⟩
        · rw [if_pos (by omega)]
        · rw [if_neg (by omega), if_pos (by omega)]
        · rw [if_neg (by omega), if_neg (by omega), if_pos (by omega)]
      · obtain ⟨e1, e2, e3⟩ := ih (by omega)
        refine ⟨?_, ?_, ?_⟩
        · rw [if_neg (by omega), if_neg (by omega), if_neg (by omega)]
          exact e1
        · rw [if_neg (by omega), if_neg (by omega), if_neg (by omega)]
          exact e2
        · rw [if_neg (by omega), if_neg (by omega), if_neg (by omega)]
          exact e3
    · rw [save_lap_at_capacity _ _ (by omega)]
      exact ih (by simp only [MAX_LAPS] at *; omega)

/-- Round trip: after `n` appends from an empty store, reading any
index `i` with `0 ≤ i < count` yields the truncated `i`-th sample. -/
theorem appendN_read (dev : Nat → DevSample) (st : LapState)
    (h0 : st.lap_count = 0) (n : Nat) (i : Nat)
    (hi : (i : Int) < (appendN dev n st).lap_count) :
    read_lap (appendN dev n st) (i : Int) = trunc (dev i) := by
  have hcount := appendN_count dev st h0 n
  rw [hcount] at hi
  obtain ⟨e1, e2, e3⟩ := appendN_mem dev st h0 n i hi
  unfold read_lap
  rw [if_neg (by rw [hcount]; omega)]
  simp only [trunc]
  exact congrArg₂ Prod.mk e1 (congrArg₂ Prod.mk e2 e3)

/- ── Device-register event trace and the control loop of `main` ──── -/

/-- One access to a stopwatch CSR register: a write to the reset /
start / stop control line, or a read of minutes / seconds / ticks. -/
inductive Ev where
  | wReset : Nat → Ev
  | wStart : Nat → Ev
  | wStop : Nat → Ev
  | rMin : Nat → Ev
  | rSec : Nat → Ev
  | rTick : Nat → Ev
deriving DecidableEq, Repr

/-- The device reads a `save_lap` call performs: none when the early
`lap_count >= MAX_LAPS` return fires (the C code returns before any
CSR access), otherwise one read of each of minutes, seconds, ticks. -/
def save_lap_events (d : DevSample) (st : LapState) : List Ev :=
  if st.lap_count ≥ MAX_LAPS then []
  else [Ev.rMin d.minutes, Ev.rSec d.seconds, Ev.rTick d.ticks]

/-- Outcome of running the `while (1)` control loop of `main`:
final lap store, device-register trace, log of the verification
`read_lap(lap_count - 1, ...)` calls as (index, result) pairs, number
of loop iterations executed, and whether the loop reached its `break`
(the HALTED state). -/
structure LoopResult where
  st : LapState
  events : List Ev
  verifs : List (Int × (Nat × Nat × Nat))
  cycles : Nat
  halted : Bool

/-- The `while (1)` loop of `main`, fuelled: each iteration delays
(no observable effect, see `delay_ms_run`), calls `save_lap` sampling
`dev k`, performs the verification read at `lap_count - 1`, and if
`lap_count >= MAX_LAPS` pulses the stop line and breaks.  After the
break the program hangs in `while (1);`, performing no further store
mutation and no further device access, so the trace ends there. -/
def mainLoop (dev : Nat → DevSample) : Nat → Nat → LapState → LoopResult
  | 0, _, st => ⟨st, [], [], 0, false⟩
  | fuel + 1, k, st =>
    let st' := save_lap (dev k) st
    let idx := st'.lap_count - 1
    let v := read_lap st' idx
    let evs := save_lap_events (dev k) st
    if st'.lap_count ≥ MAX_LAPS then
      ⟨st', evs ++ [Ev.wStop 1, Ev.wStop 0], [(idx, v)], 1, true⟩
    else
      let r := mainLoop dev fuel (k + 1) st'
      ⟨r.st, evs ++ r.events, (idx, v) :: r.verifs, r.cycles + 1, r.halted⟩

/-- The initialization sequence of `main`: a reset pulse
(`stopwatch_reset_write(1)` then `(0)`) followed by a start pulse. -/
def initEvents : List Ev :=
  [Ev.wReset 1, Ev.wReset 0, Ev.wStart 1, Ev.wStart 0]

/-- The whole of `main`: initialization pulses, then the control loop. -/
def mainRun (dev : Nat → DevSample) (fuel : Nat) (st0 : LapState) :
    LoopResult :=
  let r := mainLoop dev fuel 0 st0
  { r with events := initEvents ++ r.events }

/-- Whether an event is a write to the reset or start control line. -/
def Ev.isResetOrStart : Ev → Bool
  | Ev.wReset _ => true
  | Ev.wStart _ => true
  | _ => false

/- ── Lemmas about the control loop ───────────────────────────────── -/

/-- The verification reads the loop is expected to log when it starts
at lap count `c` with sample index `k` and runs `m` more cycles:
the `j`-th logged read is at index `c + j` and returns the truncated
sample `dev (k + j)`. -/
def expectedVerifs (dev : Nat → DevSample) :
    Nat → Nat → Int → List (Int × (Nat × Nat × Nat))
  | 0, _, _ => []
  | m + 1, k, c => (c, trunc (dev k)) :: expectedVerifs dev m (k + 1) (c + 1)

/-- Every entry of `expectedVerifs dev m k c` is, for some cycle
number `j < m`, the pair of index `c + j` and truncated sample
`dev (k + j)`. -/
theorem expectedVerifs_mem (dev : Nat → DevSample) :
    ∀ m k : Nat, ∀ c : Int, ∀ p ∈ expectedVerifs dev m k c,
      ∃ j : Nat, j < m ∧ p = (c + (j : Int), trunc (dev (k + j))) := by
  intro m
  induction m with
  | zero => intro k c p hp; simp [expectedVerifs] at hp
  | succ m ih =>
    intro k c p hp
    simp only [expectedVerifs] at hp
    rcases List.mem_cons.mp hp with rfl | hp
    · exact ⟨0, by omega, by simp⟩
    · obtain ⟨j, hj, rfl⟩ := ih (k + 1) (c + 1) p hp
      refine ⟨j + 1, by omega, ?_⟩
      refine congrArg₂ Prod.mk (by push_cast; ring) ?_
      exact congrArg trunc (congrArg dev (by omega))

theorem expectedVerifs_length (dev : Nat → DevSample) :
    ∀ m k : Nat, ∀ c : Int, (expectedVerifs dev m k c).length = m := by
  intro m
  induction m with
  | zero => intro k c; rfl
  | succ m ih => intro k c; simp [expectedVerifs, ih]

/-- Main halting lemma: if the loop starts at a lap count `c` with
`0 ≤ c < MAX_LAPS` and has at least `16 - c` iterations of fuel, it
reaches the `break` (HALTED) after exactly `16 - c` cycles, with final
lap count `MAX_LAPS`, a trace ending in the stop pulse, and a
verification log matching `expectedVerifs`. -/
theorem mainLoop_halts (dev : Nat → DevSample) :
    ∀ fuel k : Nat, ∀ st : LapState,
      0 ≤ st.lap_count → st.lap_count < MAX_LAPS →
      (MAX_LAPS - st.lap_count).toNat ≤ fuel →
      (mainLoop dev fuel k st).halted = true ∧
      (mainLoop dev fuel k st).cycles = (MAX_LAPS - st.lap_count).toNat ∧
      (mainLoop dev fuel k st).st.lap_count = MAX_LAPS ∧
      (∃ pre, (mainLoop dev fuel k st).events =
          pre ++ [Ev.wStop 1, Ev.wStop 0]) ∧
      (mainLoop dev fuel k st).verifs =
        expectedVerifs dev (MAX_LAPS - st.lap_count).toNat k st.lap_count := by
  intro fuel
  induction fuel with
  | zero =>
    intro k st h0 hlt hfuel
    simp only [MAX_LAPS] at *
    omega
  | succ fuel ih =>
    intro k st h0 hlt hfuel
    have hcount := save_lap_count_lt (dev k) st hlt
    have hread := read_save (dev k) st hlt
    have hm : (MAX_LAPS - st.lap_count).toNat =
        (MAX_LAPS - (st.lap_count + 1)).toNat + 1 := by
      simp only [MAX_LAPS] at *; omega
    simp only [mainLoop]
    by_cases hfull : (save_lap (dev k) st).lap_count ≥ MAX_LAPS
    · rw [if_pos hfull]
      refine ⟨rfl, ?_, ?_, ⟨save_lap_events (dev k) st, rfl⟩, ?_⟩
      · show 1 = _
        simp only [MAX_LAPS] at *; omega
      · show (save_lap (dev k) st).lap_count = MAX_LAPS
        simp only [MAX_LAPS] at *; omega
      · show [((save_lap (dev k) st).lap_count - 1,
            read_lap (save_lap (dev k) st)
              ((save_lap (dev k) st).lap_count - 1))] = _
        rw [hm]
        have hz : (MAX_LAPS - (st.lap_count + 1)).toNat = 0 := by
          simp only [MAX_LAPS] at *; omega
        rw [hz]
        show _ = (st.lap_count, trunc (dev k)) :: []
        rw [hcount]
        have hix : st.lap_count + 1 - 1 = st.lap_count := by omega
        rw [hix, hread]
    · rw [if_neg hfull]
      have hlt' : (save_lap (dev k) st).lap_count < MAX_LAPS := by omega
      have h0' : 0 ≤ (save_lap (dev k) st).lap_count := by omega
      have hfuel' : (MAX_LAPS - (save_lap (dev k) st).lap_count).toNat ≤
          fuel := by
        rw [hcount]; simp only [MAX_LAPS] at *; omega
      obtain ⟨ihh, ihc, ihs, ⟨pre, ihe⟩, ihv⟩ :=
        ih (k + 1) (save_lap (dev k) st) h0' hlt' hfuel'
      refine ⟨ihh, ?_, ihs, ⟨save_lap_events (dev k) st ++ pre, ?_⟩, ?_⟩
      · show (mainLoop dev fuel (k + 1) (save_lap (dev k) st)).cycles + 1 = _
        rw [ihc, hcount, hm]
      · show save_lap_events (dev k) st ++
            (mainLoop dev fuel (k + 1) (save_lap (dev k) st)).events = _
        rw [ihe, List.append_assoc]
      · show ((save_lap (dev k) st).lap_count - 1,
            read_lap (save_lap (dev k) st)
              ((save_lap (dev k) st).lap_count - 1)) ::
            (mainLoop dev fuel (k + 1) (save_lap (dev k) st)).verifs = _
        rw [ihv, hcount, hm]
        have hix : st.lap_count + 1 - 1 = st.lap_count := by omega
        rw [hix, hread]
        rfl

/-- No iteration of the control loop ever writes the reset or start
control lines: the loop's trace consists only of CSR reads and (at the
end) stop writes. -/
theorem mainLoop_no_reset_start (dev : Nat → DevSample) :
    ∀ fuel k : Nat, ∀ st : LapState,
      ∀ e ∈ (mainLoop dev fuel k st).events, e.isResetOrStart = false := by
  intro fuel
  induction fuel with
  | zero => intro k st e he; simp [mainLoop] at he
  | succ fuel ih =>
    intro k st e he
    have hsave : ∀ x ∈ save_lap_events (dev k) st,
        Ev.isResetOrStart x = false := by
      intro x hx
      unfold save_lap_events at hx
      by_cases h : st.lap_count ≥ MAX_LAPS
      · rw [if_pos h] at hx; simp at hx
      · rw [if_neg h] at hx
        simp only [List.mem_cons, List.not_mem_nil, or_false] at hx
        rcases hx with rfl | rfl | rfl <;> rfl
    simp only [mainLoop] at he
    by_cases hfull : (save_lap (dev k) st).lap_count ≥ MAX_LAPS
    · rw [if_pos hfull] at he
      rcases List.mem_append.mp he with h1 | h1
      · exact hsave e h1
      · simp only [List.mem_cons, List.not_mem_nil, or_false] at h1
        rcases h1 with rfl | rfl <;> rfl
    · rw [if_neg hfull] at he
      rcases List.mem_append.mp he with h1 | h1
      · exact hsave e h1
      · exact ih (k + 1) (save_lap (dev k) st) e h1

/- ── `delay_ms` as a fuelled small-step loop ─────────────────────── -/

/-- The system state `delay_ms` could in principle touch: the lap
store and the device trace.  Its C body references only its own
locals, so the embedding threads this state through unchanged. -/
structure SysState where
  lap : LapState
  trace : List Ev

/-- The inner `while (d--);` busy-wait of `delay_ms`, fuelled:
returns the threaded system state and the number of decrements of `d`
performed, or `none` if the fuel runs out before the loop exits. -/
def delayInner : Nat → Nat → SysState → Option (SysState × Nat)
  | 0, _, _ => none
  | fuel + 1, d, σ =>
    if d = 0 then some (σ, 0)
    else Option.map (fun r => (r.1, r.2 + 1)) (delayInner fuel (d - 1) σ)

/-- The outer `while (ms--)` loop of `delay_ms`, fuelled: each
iteration sets `d = 1000` and runs the inner busy-wait.  Returns the
threaded system state, the number of outer decrements of `ms`, and the
total number of inner decrements. -/
def delay_ms_run : Nat → Nat → SysState → Option (SysState × Nat × Nat)
  | 0, _, _ => none
  | fuel + 1, ms, σ =>
    if ms = 0 then some (σ, 0, 0)
    else
      Option.bind (delayInner 1001 1000 σ) (fun r =>
        Option.map (fun q => (q.1, q.2.1 + 1, q.2.2 + r.2))
          (delay_ms_run fuel (ms - 1) r.1))

theorem delayInner_eval (σ : SysState) :
    ∀ fuel d : Nat, d < fuel → delayInner fuel d σ = some (σ, d) := by
  intro fuel
  induction fuel with
  | zero => intro d h; omega
  | succ fuel ih =>
    intro d h
    cases d with
    | zero => simp [delayInner]
    | succ d =>
      simp only [delayInner, Nat.succ_sub_one, if_neg (Nat.succ_ne_zero d)]
      rw [ih d (by omega)]
      rfl

theorem delay_ms_run_eval (σ : SysState) :
    ∀ fuel ms : Nat, ms < fuel →
      delay_ms_run fuel ms σ = some (σ, ms, 1000 * ms) := by
  intro fuel
  induction fuel with
  | zero => intro ms h; omega
  | succ fuel ih =>
    intro ms h
    cases ms with
    | zero => simp [delay_ms_run]
    | succ ms =>
      simp only [delay_ms_run, Nat.succ_sub_one, if_neg (Nat.succ_ne_zero ms)]
      rw [delayInner_eval σ 1001 1000 (by omega)]
      simp only [Option.some_bind]
      rw [ih ms (by omega)]
      simp [Nat.mul_succ]

/- ── Concrete states and streams used by witnesses ───────────────── -/

/-- An empty store over all-zero RAM. -/
def stEmpty : LapState := { mem := fun _ => 0, lap_count := 0 }

/-- A store at capacity (16 records, all-zero bytes). -/
def stFull : LapState := { mem := fun _ => 0, lap_count := 16 }

/-- A store holding one record, over RAM whose byte just below the lap
buffer base (offset -3) is nonzero, as the surrounding RAM may be. -/
def negIxSt : LapState :=
  { mem := fun a => if a = -3 then 7 else 0, lap_count := 1 }

/-- A concrete stream of device samples. -/
def devW : Nat → DevSample :=
  fun k => { minutes := k, seconds := 2 * k + 1, ticks := 3 * k }

/- ── Claim theorems ──────────────────────────────────────────────── -/

/-- C1 counterexample: the claim says every index outside
`0 <= index < count` — including negative indices — yields the zero
record, but `read_lap` only guards `index >= lap_count`: at `index = -1`
with one stored record it reads the bytes below the buffer base
(offsets -3, -2, -1) and here returns `(7, 0, 0)`, not `(0, 0, 0)`. -/
theorem C1_counterexample : read_lap negIxSt (-1) ≠ (0, 0, 0) := by
  simp [read_lap, negIxSt, LAP_RECORD_SIZE]

/-- C1 amended: for every index `>= count`, `read_lap` returns the zero
record `(0,0,0)`; for every index `0 <= index < count` of a store built
by appends from an empty store it returns the record stored at that
index; negative indices are not guarded and read below the buffer. -/
theorem C1_read_policy :
    (∀ (st : LapState) (index : Int), index ≥ st.lap_count →
      read_lap st index = (0, 0, 0)) ∧
    (∀ (dev : Nat → DevSample) (st : LapState), st.lap_count = 0 →
      ∀ n i : Nat, (i : Int) < (appendN dev n st).lap_count →
        read_lap (appendN dev n st) (i : Int) = trunc (dev i)) := by
  constructor
  · intro st index h
    unfold read_lap
    rw [if_pos h]
  · intro dev st h0 n i hi
    exact appendN_read dev st h0 n i hi

theorem C1_read_policy_witness :
    read_lap (appendN devW 1 stEmpty) 5 = (0, 0, 0) ∧
    read_lap (appendN devW 1 stEmpty) 0 = trunc (devW 0) :=
  ⟨C1_read_policy.1 (appendN devW 1 stEmpty) 5 (by decide),
   C1_read_policy.2 devW stEmpty rfl 1 0 (by decide)⟩

/-- C2: at capacity (`lap_count >= MAX_LAPS = 16`), `save_lap` is a
no-op — the whole store state, count and every byte, is returned
unchanged and no error is signalled; below capacity it increments the
count by exactly one. -/
theorem C2_append_at_capacity (d : DevSample) (st : LapState) :
    (st.lap_count ≥ MAX_LAPS → save_lap d st = st) ∧
    (st.lap_count < MAX_LAPS →
      (save_lap d st).lap_count = st.lap_count + 1) :=
  ⟨fun h => save_lap_at_capacity d st h, fun h => save_lap_count_lt d st h⟩

theorem C2_append_at_capacity_witness :
    save_lap (devW 0) stFull = stFull ∧
    (save_lap (devW 0) stEmpty).lap_count = stEmpty.lap_count + 1 :=
  ⟨(C2_append_at_capacity (devW 0) stFull).1 (by decide),
   (C2_append_at_capacity (devW 0) stEmpty).2 (by decide)⟩

/-- C3: starting from an empty store, after `n` calls to `save_lap`
the count equals `min n 16`. -/
theorem C3_count_saturates (dev : Nat → DevSample) (st : LapState)
    (h0 : st.lap_count = 0) (n : Nat) :
    (appendN dev n st).lap_count = min (n : Int) MAX_LAPS :=
  appendN_count dev st h0 n

theorem C3_count_saturates_witness :
    (appendN devW 20 stEmpty).lap_count = min (20 : Int) MAX_LAPS :=
  C3_count_saturates devW stEmpty rfl 20

/-- C4: store/read round trip — after any number of appends from an
empty store, `read_lap i` for `0 <= i < count` returns exactly the
bytes captured from the device during the `i`-th (successful) append:
the truncated sample, which equals the three raw device-field values
whenever the device emits byte-representable values as the spec trusts
it to. -/
theorem C4_roundtrip (dev : Nat → DevSample) (st : LapState)
    (h0 : st.lap_count = 0) (n i : Nat)
    (hi : (i : Int) < (appendN dev n st).lap_count) :
    read_lap (appendN dev n st) (i : Int) = trunc (dev i) ∧
    ((dev i).minutes < 256 → (dev i).seconds < 256 → (dev i).ticks < 256 →
      read_lap (appendN dev n st) (i : Int) =
        ((dev i).minutes, (dev i).seconds, (dev i).ticks)) := by
  have h := appendN_read dev st h0 n i hi
  refine ⟨h, fun hm hs ht => ?_⟩
  rw [h]
  simp [trunc, Nat.mod_eq_of_lt hm, Nat.mod_eq_of_lt hs, Nat.mod_eq_of_lt ht]

theorem C4_roundtrip_witness :
    read_lap (appendN devW 3 stEmpty) 1 =
      ((devW 1).minutes, (devW 1).seconds, (devW 1).ticks) :=
  (C4_roundtrip devW stEmpty rfl 3 1 (by decide)).2
    (by decide) (by decide) (by decide)

/-- C5: from an empty store, the control loop executes exactly 16
cycles, appends exactly 16 records, and halts: with any fuel of at
least 16 iterations it reaches the `break` (HALTED), the final count is
`MAX_LAPS`, and its device trace ends with the stop pulse — nothing is
appended and no device command is issued after it. -/
theorem C5_loop_terminates (dev : Nat → DevSample) (st0 : LapState)
    (h0 : st0.lap_count = 0) (fuel : Nat) (hfuel : 16 ≤ fuel) :
    (mainRun dev fuel st0).halted = true ∧
    (mainRun dev fuel st0).cycles = 16 ∧
    (mainRun dev fuel st0).st.lap_count = MAX_LAPS ∧
    ∃ pre, (mainRun dev fuel st0).events =
      pre ++ [Ev.wStop 1, Ev.wStop 0] := by
  have h16 : (MAX_LAPS - st0.lap_count).toNat = 16 := by
    rw [h0]; rfl
  obtain ⟨hh, hc, hs, ⟨pre, he⟩, -⟩ :=
    mainLoop_halts dev fuel 0 st0 (by omega)
      (by rw [h0]; simp [MAX_LAPS]) (by rw [h16]; exact hfuel)
  rw [h16] at hc
  refine ⟨hh, hc, hs, ⟨initEvents ++ pre, ?_⟩⟩
  show initEvents ++ (mainLoop dev fuel 0 st0).events = _
  rw [he, List.append_assoc]

theorem C5_loop_terminates_witness :
    (mainRun devW 16 stEmpty).halted = true ∧
    (mainRun devW 16 stEmpty).cycles = 16 ∧
    (mainRun devW 16 stEmpty).st.lap_count = MAX_LAPS ∧
    ∃ pre, (mainRun devW 16 stEmpty).events =
      pre ++ [Ev.wStop 1, Ev.wStop 0] :=
  C5_loop_terminates devW stEmpty rfl 16 (by decide)

/-- C6: lap-store invariants — starting from any state with
`0 <= count <= MAX_LAPS`, after a `save_lap` the count is still within
`[0, MAX_LAPS]` and has not decreased, every byte of the already
written region `[0, 3 * count)` is unchanged, and `read_lap` (which
mutates nothing: it is a pure function of the state) addresses the
contiguous 3-byte slot at offset `3 * index`. -/
theorem C6_store_invariants (d : DevSample) (st : LapState)
    (h0 : 0 ≤ st.lap_count) (h16 : st.lap_count ≤ MAX_LAPS) :
    (0 ≤ (save_lap d st).lap_count ∧
      (save_lap d st).lap_count ≤ MAX_LAPS) ∧
    st.lap_count ≤ (save_lap d st).lap_count ∧
    (∀ a : Int, 0 ≤ a → a < st.lap_count * LAP_RECORD_SIZE →
      (save_lap d st).mem a = st.mem a) ∧
    (∀ i : Int, 0 ≤ i → i < st.lap_count →
      read_lap st i =
        (st.mem (i * LAP_RECORD_SIZE), st.mem (i * LAP_RECORD_SIZE + 1),
          st.mem (i * LAP_RECORD_SIZE + 2))) := by
  refine ⟨?_, ?_, ?_, ?_⟩
  · by_cases h : st.lap_count ≥ MAX_LAPS
    · rw [save_lap_at_capacity d st h]
      exact ⟨h0, h16⟩
    · rw [save_lap_count_lt d st (not_le.mp h)]
      constructor <;> omega
  · by_cases h : st.lap_count ≥ MAX_LAPS
    · rw [save_lap_at_capacity d st h]
    · rw [save_lap_count_lt d st (not_le.mp h)]
      omega
  · intro a ha1 ha2
    exact save_lap_mem_frame d st a (Or.inl ha2)
  · intro i hi1 hi2
    unfold read_lap
    rw [if_neg (by omega)]

theorem C6_store_invariants_witness :
    ((0 ≤ (save_lap (devW 0) stEmpty).lap_count ∧
      (save_lap (devW 0) stEmpty).lap_count ≤ MAX_LAPS) ∧
    stEmpty.lap_count ≤ (save_lap (devW 0) stEmpty).lap_count ∧
    (∀ a : Int, 0 ≤ a → a < stEmpty.lap_count * LAP_RECORD_SIZE →
      (save_lap (devW 0) stEmpty).mem a = stEmpty.mem a) ∧
    (∀ i : Int, 0 ≤ i → i < stEmpty.lap_count →
      read_lap stEmpty i =
        (stEmpty.mem (i * LAP_RECORD_SIZE),
          stEmpty.mem (i * LAP_RECORD_SIZE + 1),
          stEmpty.mem (i * LAP_RECORD_SIZE + 2)))) :=
  C6_store_invariants (devW 0) stEmpty (by decide) (by decide)

/-- C7: each stored field is the device value reduced modulo 256 (the
`(unsigned char)` truncating capture), for arbitrary device values —
no range validation is performed. -/
theorem C7_truncating_capture (d : DevSample) (st : LapState)
    (h : st.lap_count < MAX_LAPS) :
    read_lap (save_lap d st) st.lap_count =
      (d.minutes % 256, d.seconds % 256, d.ticks % 256) :=
  read_save d st h

theorem C7_truncating_capture_witness :
    read_lap (save_lap { minutes := 300, seconds := 260, ticks := 70000 }
        stEmpty) stEmpty.lap_count =
      (300 % 256, 260 % 256, 70000 % 256) :=
  C7_truncating_capture { minutes := 300, seconds := 260, ticks := 70000 }
    stEmpty (by decide)

/-- C8: the device-write trace of `main` starts with exactly one reset
pulse (write 1 then 0) immediately followed by exactly one start pulse,
before any device sampling, and no reset or start write ever occurs
again in the rest of the trace. -/
theorem C8_init_pulse_discipline (dev : Nat → DevSample) (fuel : Nat)
    (st0 : LapState) :
    ∃ rest, (mainRun dev fuel st0).events =
        [Ev.wReset 1, Ev.wReset 0, Ev.wStart 1, Ev.wStart 0] ++ rest ∧
      ∀ e ∈ rest, e.isResetOrStart = false :=
  ⟨(mainLoop dev fuel 0 st0).events, rfl,
    mainLoop_no_reset_start dev fuel 0 st0⟩

theorem C8_init_pulse_discipline_witness :
    ∃ rest, (mainRun devW 16 stEmpty).events =
        [Ev.wReset 1, Ev.wReset 0, Ev.wStart 1, Ev.wStart 0] ++ rest ∧
      ∀ e ∈ rest, e.isResetOrStart = false :=
  C8_init_pulse_discipline devW 16 stEmpty

/-- C9: every verification read performed by the control loop (a run
from an empty store) is at index `lap_count - 1 = j` for its cycle
number `j`, which lies in `[0, MAX_LAPS)` — the unguarded
negative-index path of `read_lap` is never exercised — and returns the
record the cycle just stored. -/
theorem C9_verification_reads (dev : Nat → DevSample) (st0 : LapState)
    (h0 : st0.lap_count = 0) (fuel : Nat) (hfuel : 16 ≤ fuel) :
    (mainRun dev fuel st0).verifs.length = 16 ∧
    ∀ p ∈ (mainRun dev fuel st0).verifs,
      ∃ j : Nat, j < 16 ∧ p.1 = (j : Int) ∧
        0 ≤ p.1 ∧ p.1 < MAX_LAPS ∧ p.2 = trunc (dev j) := by
  have h16 : (MAX_LAPS - st0.lap_count).toNat = 16 := by
    rw [h0]; rfl
  obtain ⟨-, -, -, -, hv⟩ :=
    mainLoop_halts dev fuel 0 st0 (by omega)
      (by rw [h0]; simp [MAX_LAPS]) (by rw [h16]; exact hfuel)
  rw [h16, h0] at hv
  have hv' : (mainRun dev fuel st0).verifs = expectedVerifs dev 16 0 0 := hv
  constructor
  · rw [hv', expectedVerifs_length]
  · intro p hp
    rw [hv'] at hp
    obtain ⟨j, hj, rfl⟩ := expectedVerifs_mem dev 16 0 0 p hp
    refine ⟨j, hj, by simp, by simp, ?_, by simp⟩
    show (0 : Int) + (j : Int) < MAX_LAPS
    simp only [MAX_LAPS]
    omega

theorem C9_verification_reads_witness :
    (mainRun devW 16 stEmpty).verifs.length = 16 ∧
    ∀ p ∈ (mainRun devW 16 stEmpty).verifs,
      ∃ j : Nat, j < 16 ∧ p.1 = (j : Int) ∧
        0 ≤ p.1 ∧ p.1 < MAX_LAPS ∧ p.2 = trunc (devW j) :=
  C9_verification_reads devW stEmpty rfl 16 (by decide)

/-- C10: `delay_ms` is total — with fuel `n + 1` the fuelled loop
returns (it never runs out of fuel): the outer loop decrements `ms`
exactly `n` times, the inner busy-wait performs exactly 1000
decrements per outer iteration (`1000 * n` in total), and the threaded
system state (lap store and device trace) is returned unchanged. -/
theorem C10_delay_total (n : Nat) (σ : SysState) :
    delay_ms_run (n + 1) n σ = some (σ, n, 1000 * n) ∧
    delayInner 1001 1000 σ = some (σ, 1000) :=
  ⟨delay_ms_run_eval σ (n + 1) n (Nat.lt_succ_self n),
    delayInner_eval σ 1001 1000 (by omega)⟩

theorem C10_delay_total_witness :
    delay_ms_run (5 + 1) 5 { lap := stEmpty, trace := [] } =
      some ({ lap := stEmpty, trace := [] }, 5, 1000 * 5) ∧
    delayInner 1001 1000 { lap := stEmpty, trace := [] } =
      some ({ lap := stEmpty, trace := [] }, 1000) :=
  C10_delay_total 5 { lap := stEmpty, trace := [] }

end Stopwatch
